import Mathlib

/-
Verification of the hexagonal word-search program (hexagonalSearch.cpp).

The program stores the honeycomb as `positionNodeArray`, a vector of layers
of nodes; each node carries a character `value`, its coordinates
`(layerN, charN)`, a 6-entry `adjacentList` of neighbor pointers and a
`visited` flag.  We embed nodes as their coordinates `(layerN, charN)`,
the adjacency as a function computed by the translation of `setNeighbors`,
and the mutable `visited` flags as an explicit state of type `Cell → Bool`
threaded through the search.
-/

/-- A node of the honeycomb, identified by its coordinates
`(layerN, charN)` in `positionNodeArray`. -/
abbrev Cell := Nat × Nat

/-- The `visited` flags of all nodes (the only state the search mutates). -/
abbrev Vis := Cell → Bool

/-- The graph the search runs on: each node's `value` and its 6-entry
`adjacentList` (entry `k` for `k < 6`; `none` is a NULL pointer). -/
structure HexGraph where
  val : Cell → Char
  adj : Cell → Nat → Option Cell

/-- Write a node's `visited` flag. -/
def setVis (vis : Vis) (c : Cell) (b : Bool) : Vis :=
  fun x => if x = c then b else vis x

/-- The neighbor indices `0, 1, ..., SIDES - 1` scanned by the loop
`for (size_t neighborN = 0; neighborN < SIDES; neighborN++)`. -/
def slotRange : List Nat := [0, 1, 2, 3, 4, 5]

/-- The neighbor loop of `searchNodes`, parameterized by the recursive
continuation `f` (the call `searchNodes(linkedNodeArray, word.substr(1),
neighbor)`).  For each slot it follows the code: skip NULL neighbors,
skip visited or mismatching ones, recurse otherwise, short-circuit on the
first success and otherwise keep scanning with the state the failed
recursion left behind. -/
def searchAdjWith (g : HexGraph) (f : Option Cell → Vis → Bool × Vis)
    (first : Char) (c : Cell) : List Nat → Vis → Bool × Vis
  | [], vis => (false, vis)
  | k :: ks, vis =>
    match g.adj c k with
    | none => searchAdjWith g f first c ks vis
    | some nb =>
      if vis nb = false ∧ g.val nb = first then
        let r := f (some nb) vis
        if r.1 = true then (true, r.2)
        else searchAdjWith g f first c ks r.2
      else searchAdjWith g f first c ks vis

/-- Translation of `searchNodes`: NULL current node is a dead end, an empty
remaining word is a success; otherwise mark the current node visited, scan
the six neighbor slots recursing on the tail of the word, and clear the
current node's flag before returning (on both the success and the failure
path). -/
def searchNodes (g : HexGraph) : List Char → Option Cell → Vis → Bool × Vis
  | _, none, vis => (false, vis)
  | [], some _, vis => (true, vis)
  | first :: rest, some c, vis =>
    let r := searchAdjWith g (fun cur v => searchNodes g rest cur v)
      first c slotRange (setVis vis c true)
    (r.1, setVis r.2 c false)

/-- Translation of `getBucket`: `value - 'A'`, computed in `int` and
converted to `size_t` (reduction modulo `2 ^ 64`). -/
def getBucket (value : Char) : Nat :=
  (((value.toNat : Int) - 65) % (2 ^ 64)).toNat

/-- Translation of `isCorner`. -/
def isCorner (layerN charN : Nat) : Bool :=
  if layerN = 0 then true else decide (charN % layerN = 0)

/-- Length of layer `r` of the input (`positionNodeArray[r].size()`). -/
def sizeAt (layers : List (List Char)) (r : Nat) : Nat :=
  (layers.getD r []).length

/-- The neighbor coordinates `setNeighbors` assigns to slot `k` of a node
at `(layerN, charN) = (r, p)` of a layer with `layerN > 0`, given the
layer count `L` and the layer sizes `cc`.  Slots 3, 4 and the corner case
of slot 5 are only assigned below the outermost layer; slot 5 is the
inside-left neighbor for non-corner nodes and the outside-left neighbor
for corner nodes. -/
def adjRing (L : Nat) (cc : Nat → Nat) (r p : Nat) : Nat → Option Cell
  | 0 => some (if p < cc r - 1 then (r - 1, (r - 1) * (p / r) + p % r) else (r - 1, 0))
  | 1 => some (if 0 < p then (r, p - 1) else (r, cc r - 1))
  | 2 => some (if p < cc r - 1 then (r, p + 1) else (r, 0))
  | 3 => if r < L - 1 then some (r + 1, (r + 1) * (p / r) + p % r) else none
  | 4 => if r < L - 1 then some (r + 1, (r + 1) * (p / r) + p % r + 1) else none
  | 5 =>
    if isCorner r p = false then
      some (r - 1, (r - 1) * (p / r) + p % r - 1)
    else if r < L - 1 then
      some (if 0 < p then (r + 1, (r + 1) * (p / r) - 1) else (r + 1, cc r + 6 - 1))
    else none
  | _ => none

/-- The neighbor coordinates `setNeighbors` assigns to slot `k` of the
node `(r, p)`: the central layer (`layerN == 0`) points its six slots at
the six nodes of layer 1 (only when more than one layer exists); all other
layers follow `adjRing`. -/
def adjSlot (L : Nat) (cc : Nat → Nat) (r p k : Nat) : Option Cell :=
  if r = 0 then
    if 1 < L ∧ k < 6 then some (1, k) else none
  else adjRing L cc r p k

/-- The full adjacency produced by `setNeighbors` on the given layers:
nodes that exist in `positionNodeArray` get their slots from `adjSlot`,
coordinates outside the grid denote no node and have no neighbors. -/
def adjOf (layers : List (List Char)) (c : Cell) (k : Nat) : Option Cell :=
  if c.1 < layers.length ∧ c.2 < sizeAt layers c.1 then
    adjSlot layers.length (sizeAt layers) c.1 c.2 k
  else none

/-- The character stored at a node (`layers[r][p]`). -/
def valAt (layers : List (List Char)) (c : Cell) : Char :=
  (layers.getD c.1 []).getD c.2 (Char.ofNat 0)

/-- The graph built by `populateLinkedNodeArray` followed by
`setNeighbors`. -/
def gridOf (layers : List (List Char)) : HexGraph :=
  { val := valAt layers, adj := adjOf layers }

/-- The coordinates of the nodes `populateLinkedNodeArray` creates, layer
by layer and position by position. -/
def positionsOf (layers : List (List Char)) : List (List Cell) :=
  (List.range layers.length).map
    (fun r => (List.range (sizeAt layers r)).map (fun p => (r, p)))

/-- All node coordinates in creation order (layer-major,
position-minor). -/
def cellsOf (layers : List (List Char)) : List Cell :=
  (positionsOf layers).flatten

/-- The linked list `linkedNodeArray[b]`: the nodes whose value hashes to
bucket `b`, in creation order (`populateLinkedNodeArray` appends each new
node at the end of its bucket's list). -/
def bucketsOf (layers : List (List Char)) (b : Nat) : List Cell :=
  (cellsOf layers).filter (fun c => getBucket (valAt layers c) == b)

/-- `word[0]` as the driver reads it: for an empty `std::string` the
subscript at position 0 yields the null character. -/
def wordFirst (w : List Char) : Char := w.headD (Char.ofNat 0)

/-- The driver's inner `while` loop: try each start node of the bucket's
linked list in order, reusing the visited state each search leaves
behind, and stop at the first success. -/
def searchStarts (g : HexGraph) (w1 : List Char) : List Cell → Vis → Bool × Vis
  | [], vis => (false, vis)
  | c :: cs, vis =>
    let r := searchNodes g w1 (some c) vis
    if r.1 = true then (true, r.2) else searchStarts g w1 cs r.2

/-- The driver's outer loop over the dictionary: for each word look up the
bucket of its first character, search from each start node with the rest
of the word (`word.substr(1)`), and collect the found words in dictionary
order.  The visited state is threaded through the whole run, as the
program's node flags are. -/
def runWords (layers : List (List Char)) : List (List Char) → Vis → List (List Char)
  | [], _ => []
  | w :: ws, vis =>
    let r := searchStarts (gridOf layers) (w.drop 1)
      (bucketsOf layers (getBucket (wordFirst w))) vis
    if r.1 = true then w :: runWords layers ws r.2
    else runWords layers ws r.2

/-- Lexicographic comparison of words (`operator<` of `std::string`). -/
def lexLt : List Char → List Char → Bool
  | [], [] => false
  | [], _ :: _ => true
  | _ :: _, [] => false
  | a :: as, b :: bs => if a < b then true else if b < a then false else lexLt as bs

/-- Insert a word into a sorted list of words. -/
def insertWord (w : List Char) : List (List Char) → List (List Char)
  | [] => [w]
  | x :: xs => if lexLt w x = true then w :: x :: xs else x :: insertWord w xs

/-- Sorting of the found words (`sort(found.begin(), found.end())`). -/
def sortWords : List (List Char) → List (List Char)
  | [] => []
  | x :: xs => insertWord x (sortWords xs)

/-- The whole run of `main` after input reading: build the grid, search
every dictionary word, sort the found words. -/
def runMain (layers : List (List Char)) (dict : List (List Char)) : List (List Char) :=
  sortWords (runWords layers dict (fun _ => false))

/-- One move of a search path: `b` sits in one of the six neighbor slots
of `a`. -/
def Step (g : HexGraph) (a b : Cell) : Prop :=
  ∃ k, k < 6 ∧ g.adj a k = some b

/-- Well-formedness of the honeycomb input, from the data model: layer 0
has exactly one node and layer `r > 0` has exactly `6 * r` nodes. -/
def WellFormed (layers : List (List Char)) : Prop :=
  ∀ r < layers.length, sizeAt layers r = if r = 0 then 1 else 6 * r

/-- Number of neighbor slots of `c` pointing into the next layer inward. -/
def inwardCount (layers : List (List Char)) (c : Cell) : Nat :=
  (slotRange.filter (fun k =>
    match adjOf layers c k with
    | some b => b.1 == c.1 - 1
    | none => false)).length

/-- Fuel-indexed variant of the neighbor loop: `none` means the recursion
budget ran out inside some recursive call. -/
def searchAdjFuel (g : HexGraph) (f : Option Cell → Vis → Option (Bool × Vis))
    (first : Char) (c : Cell) : List Nat → Vis → Option (Bool × Vis)
  | [], vis => some (false, vis)
  | k :: ks, vis =>
    match g.adj c k with
    | none => searchAdjFuel g f first c ks vis
    | some nb =>
      if vis nb = false ∧ g.val nb = first then
        match f (some nb) vis with
        | none => none
        | some r =>
          if r.1 = true then some (true, r.2)
          else searchAdjFuel g f first c ks r.2
      else searchAdjFuel g f first c ks vis

/-- Fuel-indexed variant of `searchNodes`: each nested invocation consumes
one unit of fuel; `none` means the given recursion depth did not
suffice. -/
def searchNodesFuel (g : HexGraph) : Nat → List Char → Option Cell → Vis → Option (Bool × Vis)
  | 0, _, _, _ => none
  | Nat.succ _, _, none, vis => some (false, vis)
  | Nat.succ _, [], some _, vis => some (true, vis)
  | Nat.succ n, first :: rest, some c, vis =>
    match searchAdjFuel g (fun cur v => searchNodesFuel g n rest cur v)
      first c slotRange (setVis vis c true) with
    | none => none
    | some r => some (r.1, setVis r.2 c false)

/- ### Basic facts about the embedding -/

lemma mem_slotRange {k : Nat} : k ∈ slotRange ↔ k < 6 := by
  simp only [slotRange, List.mem_cons, List.not_mem_nil, or_false]
  omega

lemma setVis_setVis_cancel (vis : Vis) (c : Cell) (h : vis c = false) :
    setVis (setVis vis c true) c false = vis := by
  funext x
  by_cases hx : x = c
  · subst hx; simp [setVis, h]
  · simp [setVis, hx]

/- ### Unfolding equations for the search functions -/

lemma searchAdjWith_nil (g : HexGraph) (f : Option Cell → Vis → Bool × Vis)
    (first : Char) (c : Cell) (vis : Vis) :
    searchAdjWith g f first c [] vis = (false, vis) := rfl

lemma searchAdjWith_cons_none (g : HexGraph) (f : Option Cell → Vis → Bool × Vis)
    (first : Char) (c : Cell) (k : Nat) (ks : List Nat) (vis : Vis)
    (h : g.adj c k = none) :
    searchAdjWith g f first c (k :: ks) vis = searchAdjWith g f first c ks vis := by
  rw [searchAdjWith, h]

lemma searchAdjWith_cons_some (g : HexGraph) (f : Option Cell → Vis → Bool × Vis)
    (first : Char) (c : Cell) (k : Nat) (ks : List Nat) (vis : Vis) (nb : Cell)
    (h : g.adj c k = some nb) :
    searchAdjWith g f first c (k :: ks) vis =
      if vis nb = false ∧ g.val nb = first then
        (if (f (some nb) vis).1 = true then (true, (f (some nb) vis).2)
         else searchAdjWith g f first c ks (f (some nb) vis).2)
      else searchAdjWith g f first c ks vis := by
  rw [searchAdjWith, h]

lemma searchNodes_none (g : HexGraph) (w : List Char) (vis : Vis) :
    searchNodes g w none vis = (false, vis) := by
  cases w <;> rfl

lemma searchNodes_nil_some (g : HexGraph) (c : Cell) (vis : Vis) :
    searchNodes g [] (some c) vis = (true, vis) := rfl

lemma searchNodes_cons_some (g : HexGraph) (first : Char) (rest : List Char)
    (c : Cell) (vis : Vis) :
    searchNodes g (first :: rest) (some c) vis =
      ((searchAdjWith g (fun cur v => searchNodes g rest cur v)
          first c slotRange (setVis vis c true)).1,
       setVis (searchAdjWith g (fun cur v => searchNodes g rest cur v)
          first c slotRange (setVis vis c true)).2 c false) := rfl

/- ### Restoration of the visited flags (frame property) -/

lemma searchAdjWith_frame (g : HexGraph) (f : Option Cell → Vis → Bool × Vis)
    (first : Char) (c : Cell)
    (hf : ∀ nb v, v nb = false → (f (some nb) v).2 = v) :
    ∀ (ks : List Nat) (vis : Vis), (searchAdjWith g f first c ks vis).2 = vis := by
  intro ks
  induction ks with
  | nil => intro vis; rfl
  | cons k ks ih =>
    intro vis
    rcases hadj : g.adj c k with _ | nb
    · rw [searchAdjWith_cons_none g f first c k ks vis hadj]
      exact ih vis
    · rw [searchAdjWith_cons_some g f first c k ks vis nb hadj]
      by_cases hg : vis nb = false ∧ g.val nb = first
      · rw [if_pos hg]
        have hfr : (f (some nb) vis).2 = vis := hf nb vis hg.1
        by_cases hb : (f (some nb) vis).1 = true
        · rw [if_pos hb]
          exact hfr
        · rw [if_neg hb, hfr]
          exact ih vis
      · rw [if_neg hg]
        exact ih vis

lemma searchNodes_frame (g : HexGraph) :
    ∀ (w : List Char) (cur : Option Cell) (vis : Vis),
      (∀ c, cur = some c → vis c = false) →
      (searchNodes g w cur vis).2 = vis := by
  intro w
  induction w with
  | nil =>
    intro cur vis _
    cases cur <;> rfl
  | cons first rest ih =>
    intro cur vis h
    cases cur with
    | none => rfl
    | some c =>
      have hc : vis c = false := h c rfl
      rw [searchNodes_cons_some]
      show setVis (searchAdjWith g (fun cur v => searchNodes g rest cur v)
          first c slotRange (setVis vis c true)).2 c false = vis
      rw [searchAdjWith_frame g _ first c
        (fun nb v hv => ih (some nb) v (fun x hx => by cases hx; exact hv))]
      exact setVis_setVis_cancel vis c hc

/-- C3: after any call to the search — any word, any start node, all
visited flags false before the call — every node's visited flag equals
its pre-call value when the call returns, on the success and on the
failure path alike. -/
theorem claim_C3_visited_restored (g : HexGraph) (w : List Char)
    (cur : Option Cell) (vis : Vis) (hvis : ∀ x, vis x = false) :
    ∀ x, (searchNodes g w cur vis).2 x = vis x := by
  intro x
  rw [searchNodes_frame g w cur vis (fun c _ => hvis c)]

/-- Witness for C3 at a concrete grid, word and start node. -/
theorem claim_C3_witness :
    (searchNodes (gridOf [['A'], ['B', 'C', 'D', 'E', 'F', 'G']])
      ['B'] (some (0, 0)) (fun _ => false)).2 (1, 0) = (fun (_ : Cell) => false) (1, 0) :=
  claim_C3_visited_restored (gridOf [['A'], ['B', 'C', 'D', 'E', 'F', 'G']])
    ['B'] (some (0, 0)) (fun _ => false) (fun _ => rfl) (1, 0)

/- ### Soundness and completeness of the backtracking search -/

lemma searchAdjWith_iff (g : HexGraph) (f : Option Cell → Vis → Bool × Vis)
    (P : Cell → Vis → Prop) (first : Char) (c : Cell)
    (hframe : ∀ nb v, v nb = false → (f (some nb) v).2 = v)
    (hiff : ∀ nb v, v nb = false → ((f (some nb) v).1 = true ↔ P nb v)) :
    ∀ (ks : List Nat) (vis : Vis),
      ((searchAdjWith g f first c ks vis).1 = true ↔
        ∃ k ∈ ks, ∃ nb, g.adj c k = some nb ∧ vis nb = false ∧
          g.val nb = first ∧ P nb vis) := by
  intro ks
  induction ks with
  | nil =>
    intro vis
    simp [searchAdjWith_nil]
  | cons k ks ih =>
    intro vis
    rw [List.exists_mem_cons_iff]
    rcases hadj : g.adj c k with _ | nb
    · rw [searchAdjWith_cons_none g f first c k ks vis hadj, ih vis]
      constructor
      · intro h; exact Or.inr h
      · rintro (⟨nb, hnb, _⟩ | h)
        · cases hnb
        · exact h
    · rw [searchAdjWith_cons_some g f first c k ks vis nb hadj]
      by_cases hg : vis nb = false ∧ g.val nb = first
      · rw [if_pos hg]
        have hfr : (f (some nb) vis).2 = vis := hframe nb vis hg.1
        by_cases hb : (f (some nb) vis).1 = true
        · rw [if_pos hb]
          constructor
          · intro _
            exact Or.inl ⟨nb, rfl, hg.1, hg.2, (hiff nb vis hg.1).mp hb⟩
          · intro _; rfl
        · rw [if_neg hb, hfr, ih vis]
          constructor
          · intro h; exact Or.inr h
          · rintro (⟨nb2, hnb2, _, _, hP⟩ | h)
            · cases hnb2
              exact absurd ((hiff nb vis hg.1).mpr hP) hb
            · exact h
      · rw [if_neg hg]
        rw [ih vis]
        constructor
        · intro h; exact Or.inr h
        · rintro (⟨nb2, hnb2, hv, hval, _⟩ | h)
          · cases hnb2
            exact absurd ⟨hv, hval⟩ hg
          · exact h

lemma setVis_true_eq_false_iff {vis : Vis} {c x : Cell} :
    setVis vis c true x = false ↔ x ≠ c ∧ vis x = false := by
  unfold setVis
  by_cases hx : x = c <;> simp [hx]

lemma searchNodes_iff (g : HexGraph) :
    ∀ (w : List Char) (c : Cell) (vis : Vis), vis c = false →
      ((searchNodes g w (some c) vis).1 = true ↔
        ∃ l : List Cell, List.Chain (Step g) c l ∧ (c :: l).Nodup ∧
          l.map g.val = w ∧ ∀ x ∈ l, vis x = false) := by
  intro w
  induction w with
  | nil =>
    intro c vis _
    rw [searchNodes_nil_some]
    constructor
    · intro _
      exact ⟨[], List.Chain.nil, by simp, rfl, by simp⟩
    · intro _; rfl
  | cons first rest ih =>
    intro c vis hc
    rw [searchNodes_cons_some]
    show (searchAdjWith g (fun cur v => searchNodes g rest cur v)
        first c slotRange (setVis vis c true)).1 = true ↔ _
    rw [searchAdjWith_iff g (fun cur v => searchNodes g rest cur v)
      (fun nb v => ∃ l : List Cell, List.Chain (Step g) nb l ∧ (nb :: l).Nodup ∧
        l.map g.val = rest ∧ ∀ x ∈ l, v x = false) first c
      (fun nb v hv => searchNodes_frame g rest (some nb) v
        (fun x hx => by cases hx; exact hv))
      (fun nb v hv => ih nb v hv)
      slotRange (setVis vis c true)]
    constructor
    · rintro ⟨k, hk, nb, hadj, hnb, hval, l2, hchain, hnodup, hmap, hvl⟩
      rw [setVis_true_eq_false_iff] at hnb
      refine ⟨nb :: l2, List.Chain.cons ⟨k, mem_slotRange.mp hk, hadj⟩ hchain, ?_, ?_, ?_⟩
      · rw [List.nodup_cons]
        refine ⟨?_, hnodup⟩
        intro hmem
        rcases List.mem_cons.mp hmem with hce | hcl
        · exact hnb.1 hce.symm
        · exact ((setVis_true_eq_false_iff.mp (hvl c hcl)).1) rfl
      · simp [hmap, hval]
      · intro x hx
        rcases List.mem_cons.mp hx with hxe | hxl
        · subst hxe; exact hnb.2
        · exact (setVis_true_eq_false_iff.mp (hvl x hxl)).2
    · rintro ⟨l, hchain, hnodup, hmap, hvl⟩
      rcases l with _ | ⟨nb, l2⟩
      · simp at hmap
      · rw [List.chain_cons] at hchain
        rcases hchain.1 with ⟨k, hk6, hadj⟩
        rw [List.map_cons, List.cons.injEq] at hmap
        rw [List.nodup_cons, List.mem_cons] at hnodup
        push_neg at hnodup
        refine ⟨k, mem_slotRange.mpr hk6, nb, hadj, ?_, hmap.1, l2, hchain.2, ?_, hmap.2, ?_⟩
        · rw [setVis_true_eq_false_iff]
          exact ⟨fun h => hnodup.1.1 h.symm, hvl nb (List.mem_cons_self nb l2)⟩
        · exact hnodup.2
        · intro x hx
          rw [setVis_true_eq_false_iff]
          exact ⟨fun h => hnodup.1.2 (h ▸ hx), hvl x (List.mem_cons_of_mem nb hx)⟩

/-- C1: for every word `first :: rest` and every start node whose letter
matches the word's first character (the driver only starts searches from
the bucket of the first letter, and passes `word.substr(1)` to
`searchNodes`), with all visited flags clear, the search returns true iff
some simple path (no node repeated) through neighbor-linked nodes starts
at the start node and spells the word exactly. -/
theorem claim_C1_search_correct (g : HexGraph) (first : Char) (rest : List Char)
    (start : Cell) (vis : Vis) (hvis : ∀ x, vis x = false)
    (hstart : g.val start = first) :
    (searchNodes g rest (some start) vis).1 = true ↔
      ∃ l : List Cell, List.Chain (Step g) start l ∧ (start :: l).Nodup ∧
        (start :: l).map g.val = first :: rest := by
  rw [searchNodes_iff g rest start vis (hvis start)]
  constructor
  · rintro ⟨l, hchain, hnodup, hmap, _⟩
    exact ⟨l, hchain, hnodup, by simp [hmap, hstart]⟩
  · rintro ⟨l, hchain, hnodup, hmap⟩
    rw [List.map_cons, List.cons.injEq] at hmap
    exact ⟨l, hchain, hnodup, hmap.2, fun x _ => hvis x⟩

/-- Witness for C1: on the two-ring example grid, searching "AB" from the
center succeeds iff a simple path spelling "AB" exists there. -/
theorem claim_C1_witness :
    (searchNodes (gridOf [['A'], ['B', 'C', 'D', 'E', 'F', 'G']])
      ['B'] (some (0, 0)) (fun _ => false)).1 = true ↔
      ∃ l : List Cell,
        List.Chain (Step (gridOf [['A'], ['B', 'C', 'D', 'E', 'F', 'G']])) (0, 0) l ∧
        ((0, 0) :: l).Nodup ∧
        ((0, 0) :: l).map (gridOf [['A'], ['B', 'C', 'D', 'E', 'F', 'G']]).val = ['A', 'B'] :=
  claim_C1_search_correct (gridOf [['A'], ['B', 'C', 'D', 'E', 'F', 'G']])
    'A' ['B'] (0, 0) (fun _ => false) (fun _ => rfl) rfl

/- ### Recursion depth bound -/

lemma searchAdjFuel_nil (g : HexGraph) (f : Option Cell → Vis → Option (Bool × Vis))
    (first : Char) (c : Cell) (vis : Vis) :
    searchAdjFuel g f first c [] vis = some (false, vis) := rfl

lemma searchAdjFuel_cons_none (g : HexGraph) (f : Option Cell → Vis → Option (Bool × Vis))
    (first : Char) (c : Cell) (k : Nat) (ks : List Nat) (vis : Vis)
    (h : g.adj c k = none) :
    searchAdjFuel g f first c (k :: ks) vis = searchAdjFuel g f first c ks vis := by
  rw [searchAdjFuel, h]

lemma searchAdjFuel_cons_some (g : HexGraph) (f : Option Cell → Vis → Option (Bool × Vis))
    (first : Char) (c : Cell) (k : Nat) (ks : List Nat) (vis : Vis) (nb : Cell)
    (h : g.adj c k = some nb) :
    searchAdjFuel g f first c (k :: ks) vis =
      if vis nb = false ∧ g.val nb = first then
        (match f (some nb) vis with
         | none => none
         | some r =>
           if r.1 = true then some (true, r.2)
           else searchAdjFuel g f first c ks r.2)
      else searchAdjFuel g f first c ks vis := by
  rw [searchAdjFuel, h]

lemma searchAdjFuel_adequate (g : HexGraph)
    (f : Option Cell → Vis → Bool × Vis) (fF : Option Cell → Vis → Option (Bool × Vis))
    (first : Char) (c : Cell)
    (hf : ∀ cur v, fF cur v = some (f cur v)) :
    ∀ (ks : List Nat) (vis : Vis),
      searchAdjFuel g fF first c ks vis = some (searchAdjWith g f first c ks vis) := by
  intro ks
  induction ks with
  | nil => intro vis; rfl
  | cons k ks ih =>
    intro vis
    rcases hadj : g.adj c k with _ | nb
    · rw [searchAdjFuel_cons_none g fF first c k ks vis hadj,
        searchAdjWith_cons_none g f first c k ks vis hadj]
      exact ih vis
    · rw [searchAdjFuel_cons_some g fF first c k ks vis nb hadj,
        searchAdjWith_cons_some g f first c k ks vis nb hadj]
      by_cases hg : vis nb = false ∧ g.val nb = first
      · rw [if_pos hg, if_pos hg, hf (some nb) vis]
        show (if (f (some nb) vis).1 = true then some (true, (f (some nb) vis).2)
            else searchAdjFuel g fF first c ks (f (some nb) vis).2) = _
        by_cases hb : (f (some nb) vis).1 = true
        · rw [if_pos hb, if_pos hb]
        · rw [if_neg hb, if_neg hb]
          exact ih (f (some nb) vis).2
      · rw [if_neg hg, if_neg hg]
        exact ih vis

/-- C9: the recursive search always terminates, and a recursion budget of
one nested invocation per character of the remaining word plus the initial
invocation always suffices: with fuel exceeding the word length, the
fuel-indexed search never runs out of fuel and computes exactly
`searchNodes`, independently of the grid. -/
theorem claim_C9_depth_bound (g : HexGraph) :
    ∀ (w : List Char) (n : Nat) (cur : Option Cell) (vis : Vis), w.length < n →
      searchNodesFuel g n w cur vis = some (searchNodes g w cur vis) := by
  intro w
  induction w with
  | nil =>
    intro n cur vis hn
    obtain ⟨m, rfl⟩ : ∃ m, n = m + 1 := ⟨n - 1, by omega⟩
    cases cur with
    | none => rw [searchNodes_none]; rfl
    | some c => rw [searchNodes_nil_some]; rfl
  | cons first rest ih =>
    intro n cur vis hn
    obtain ⟨m, rfl⟩ : ∃ m, n = m + 1 := ⟨n - 1, by omega⟩
    cases cur with
    | none => rw [searchNodes_none]; rfl
    | some c =>
      have hrest : rest.length < m := by
        simp only [List.length_cons] at hn; omega
      show (match searchAdjFuel g (fun cur v => searchNodesFuel g m rest cur v)
          first c slotRange (setVis vis c true) with
        | none => none
        | some r => some (r.1, setVis r.2 c false)) = _
      rw [searchAdjFuel_adequate g (fun cur v => searchNodes g rest cur v)
        (fun cur v => searchNodesFuel g m rest cur v) first c
        (fun cur v => ih m cur v hrest) slotRange (setVis vis c true)]
      rw [searchNodes_cons_some]

/-- Witness for C9 at a concrete grid, word, fuel and start node. -/
theorem claim_C9_witness :
    searchNodesFuel (gridOf [['A'], ['B', 'C', 'D', 'E', 'F', 'G']]) 2
        ['B'] (some (0, 0)) (fun _ => false)
      = some (searchNodes (gridOf [['A'], ['B', 'C', 'D', 'E', 'F', 'G']])
        ['B'] (some (0, 0)) (fun _ => false)) :=
  claim_C9_depth_bound (gridOf [['A'], ['B', 'C', 'D', 'E', 'F', 'G']])
    ['B'] 2 (some (0, 0)) (fun _ => false) (by decide)

/- ### Bucket index arithmetic -/

lemma char_toNat_lt (c : Char) : c.toNat < 1114112 := by
  have := c.valid
  unfold Char.toNat
  rcases this with h | h
  · omega
  · omega

lemma char_eq_of_toNat_eq {c d : Char} (h : c.toNat = d.toNat) : c = d := by
  apply Char.eq_of_val_eq
  apply UInt32.eq_of_toBitVec_eq
  have hv : c.val.toNat = d.val.toNat := h
  exact BitVec.eq_of_toNat_eq hv

lemma getBucket_eq (c : Char) :
    getBucket c = if 65 ≤ c.toNat then c.toNat - 65 else c.toNat + (2 ^ 64 - 65) := by
  have hlt : c.toNat < 1114112 := char_toNat_lt c
  unfold getBucket
  by_cases h : 65 ≤ c.toNat
  · rw [if_pos h]
    rw [Int.emod_eq_of_lt (by omega) (by omega)]
    omega
  · rw [if_neg h]
    have hstep : (((c.toNat : Int) - 65) + 2 ^ 64 * 1) % (2 ^ 64) =
        ((c.toNat : Int) - 65) % (2 ^ 64) :=
      Int.add_mul_emod_self_left ((c.toNat : Int) - 65) (2 ^ 64) 1
    rw [mul_one] at hstep
    rw [← hstep, Int.emod_eq_of_lt (by omega) (by omega)]
    omega

lemma getBucket_lt_iff (c : Char) :
    getBucket c < 26 ↔ 65 ≤ c.toNat ∧ c.toNat ≤ 90 := by
  have hlt : c.toNat < 1114112 := char_toNat_lt c
  rw [getBucket_eq]
  by_cases h : 65 ≤ c.toNat
  · rw [if_pos h]; omega
  · rw [if_neg h]; omega

lemma getBucket_inj {c d : Char} (h : getBucket c = getBucket d) : c = d := by
  have hc : c.toNat < 1114112 := char_toNat_lt c
  have hd : d.toNat < 1114112 := char_toNat_lt d
  rw [getBucket_eq, getBucket_eq] at h
  apply char_eq_of_toNat_eq
  by_cases h1 : 65 ≤ c.toNat <;> by_cases h2 : 65 ≤ d.toNat <;>
    simp only [if_pos, if_neg, h1, h2, if_true, if_false] at h <;> omega

/-- C10: the bucket index the driver computes from a dictionary word,
`word[0] - 'A'` read as an unsigned `size_t`, lies within the 26-entry
bucket array exactly when the word is non-empty and its first character
is an uppercase letter between 'A' (code 65) and 'Z' (code 90); for an
empty word (whose `word[0]` is the null character) or a first character
outside that range the computed index falls outside the array. -/
theorem claim_C10_bucket_bounds (w : List Char) :
    getBucket (wordFirst w) < 26 ↔
      ∃ c rest, w = c :: rest ∧ 65 ≤ c.toNat ∧ c.toNat ≤ 90 := by
  cases w with
  | nil =>
    rw [getBucket_lt_iff]
    constructor
    · intro h
      have : (Char.ofNat 0).toNat = 0 := by decide
      simp only [wordFirst, List.headD] at h
      omega
    · rintro ⟨c, rest, h, _⟩
      cases h
  | cons c rest =>
    rw [getBucket_lt_iff]
    constructor
    · intro h
      exact ⟨c, rest, rfl, h.1, h.2⟩
    · rintro ⟨c2, rest2, heq, h1, h2⟩
      rw [List.cons.injEq] at heq
      rw [show wordFirst (c :: rest) = c from rfl, heq.1]
      exact ⟨h1, h2⟩

/- ### Grid construction (C4) -/

lemma mem_cellsOf (layers : List (List Char)) (r p : Nat) :
    (r, p) ∈ cellsOf layers ↔ r < layers.length ∧ p < sizeAt layers r := by
  simp only [cellsOf, positionsOf, List.mem_flatten, List.mem_map, List.mem_range]
  constructor
  · rintro ⟨row, ⟨r2, hr2, rfl⟩, hmem⟩
    rcases List.mem_map.mp hmem with ⟨p2, hp2, hpair⟩
    rw [Prod.mk.injEq] at hpair
    rcases hpair with ⟨rfl, rfl⟩
    exact ⟨hr2, List.mem_range.mp hp2⟩
  · rintro ⟨hr, hp⟩
    exact ⟨(List.range (sizeAt layers r)).map (fun p => (r, p)), ⟨r, hr, rfl⟩,
      List.mem_map.mpr ⟨p, List.mem_range.mpr hp, rfl⟩⟩

/-- C4 counterexample: the claim says construction fails fast with an
error and produces no grid on malformed input; but on the lowercase
(non-uppercase) ring content "a" the construction produces the one-node
grid anyway, and the node's bucket index is 32, outside the 26-entry
bucket array — an unchecked out-of-range access, not a reported error.
Likewise the empty ring list simply produces the empty grid. -/
theorem claim_C4_counterexample :
    positionsOf [['a']] = [[(0, 0)]] ∧
    (0, 0) ∈ cellsOf [['a']] ∧
    getBucket (valAt [['a']] (0, 0)) = 32 ∧
    ¬ getBucket (valAt [['a']] (0, 0)) < 26 ∧
    positionsOf ([] : List (List Char)) = [] := by
  refine ⟨rfl, ?_, by decide, by decide, rfl⟩
  rw [mem_cellsOf]
  constructor <;> simp [sizeAt]

/-- C4 amended: grid construction performs no validation at all — it is
total: the empty ring list yields the empty grid rather than an error,
every character of every ring yields a node, and for a non-uppercase
character the bucket index `value - 'A'` used to file the node lies
outside the 26-entry bucket array (an out-of-range access rather than a
reported construction error). -/
theorem claim_C4_no_validation :
    (positionsOf ([] : List (List Char)) = []) ∧
    (∀ (layers : List (List Char)) (r p : Nat),
      r < layers.length → p < sizeAt layers r → (r, p) ∈ cellsOf layers) ∧
    (∀ c : Char, ¬(65 ≤ c.toNat ∧ c.toNat ≤ 90) → 26 ≤ getBucket c) := by
  refine ⟨rfl, ?_, ?_⟩
  · intro layers r p hr hp
    exact (mem_cellsOf layers r p).mpr ⟨hr, hp⟩
  · intro c h
    have := getBucket_lt_iff c
    omega

/-- Witness for the amended C4 at concrete inputs. -/
theorem claim_C4_witness :
    (0, 0) ∈ cellsOf [['a']] ∧ 26 ≤ getBucket (Char.ofNat 48) :=
  ⟨claim_C4_no_validation.2.1 [['a']] 0 0 (by decide) (by decide),
   claim_C4_no_validation.2.2 (Char.ofNat 48) (by decide)⟩

/- ### Arithmetic helpers for the neighbor geometry -/

lemma divmod_lemma (m a b : Nat) (hm : 0 < m) (hb : b < m) :
    (m * a + b) / m = a ∧ (m * a + b) % m = b := by
  constructor
  · rw [Nat.mul_add_div hm, Nat.div_eq_of_lt hb, Nat.add_zero]
  · rw [Nat.mul_add_mod, Nat.mod_eq_of_lt hb]

lemma isCorner_eq_false (r p : Nat) (hr : r ≠ 0) (hm : p % r ≠ 0) :
    isCorner r p = false := by
  simp [isCorner, hr, hm]

lemma isCorner_eq_true_of_mod (r p : Nat) (hm : p % r = 0) :
    isCorner r p = true := by
  by_cases hr : r = 0 <;> simp [isCorner, hr, hm]

lemma isCorner_false_elim (r p : Nat) (h : isCorner r p = false) : p % r ≠ 0 := by
  by_cases hr : r = 0
  · rw [isCorner, if_pos hr] at h; cases h
  · rw [isCorner, if_neg hr] at h
    simpa using h

lemma isCorner_true_elim (r p : Nat) (hr : r ≠ 0) (h : isCorner r p = true) :
    p % r = 0 := by
  rw [isCorner, if_neg hr] at h
  simpa using h

/- ### Symmetry of the neighbor relation -/

lemma adjSlot_symm (L : Nat) (cc : Nat → Nat)
    (hcc : ∀ r < L, cc r = if r = 0 then 1 else 6 * r)
    (r p k r2 p2 : Nat) (hr : r < L) (hp : p < cc r)
    (h : adjSlot L cc r p k = some (r2, p2)) :
    r2 < L ∧ p2 < cc r2 ∧ ∃ j, adjSlot L cc r2 p2 j = some (r, p) := by
  by_cases hr0 : r = 0
  · -- the central node: all six slots point at layer 1
    subst hr0
    unfold adjSlot at h
    rw [if_pos rfl] at h
    by_cases hLk : 1 < L ∧ k < 6
    · rw [if_pos hLk] at h
      rw [Option.some.injEq, Prod.mk.injEq] at h
      obtain ⟨rfl, rfl⟩ := h
      have hcc1 : cc 1 = 6 := by
        have := hcc 1 hLk.1
        simpa using this
      have hcc0 : cc 0 = 1 := by
        have := hcc 0 (by omega)
        simpa using this
      have hp0 : p = 0 := by omega
      subst hp0
      refine ⟨hLk.1, by omega, 0, ?_⟩
      unfold adjSlot
      rw [if_neg one_ne_zero]
      show adjRing L cc 1 k 0 = some (0, 0)
      simp only [adjRing]
      by_cases hkc : k < cc 1 - 1
      · rw [if_pos hkc]
        rw [Option.some.injEq, Prod.mk.injEq]
        exact ⟨rfl, by simp [Nat.mod_one]⟩
      · rw [if_neg hkc]
    · rw [if_neg hLk] at h
      exact Option.noConfusion h
  · -- a node of layer r ≥ 1
    have hrpos : 0 < r := Nat.pos_of_ne_zero hr0
    have hccr : cc r = 6 * r := by
      have := hcc r hr
      rw [if_neg hr0] at this
      exact this
    have hL2 : 2 ≤ L := by omega
    obtain ⟨q, hq⟩ : ∃ x, p / r = x := ⟨_, rfl⟩
    obtain ⟨s, hsv⟩ : ∃ x, p % r = x := ⟨_, rfl⟩
    have hds : r * q + s = p := by
      rw [← hq, ← hsv]
      exact Nat.div_add_mod p r
    have hslt : s < r := by
      rw [← hsv]
      exact Nat.mod_lt _ hrpos
    have hqlt : q < 6 := by
      rw [← hq]
      exact (Nat.div_lt_iff_lt_mul hrpos).mpr (by omega)
    unfold adjSlot at h
    rw [if_neg hr0] at h
    rcases k with _ | _ | _ | _ | _ | _ | k7
    · -- slot 0: inside neighbor (or inside right)
      simp only [adjRing] at h
      rw [hq, hsv] at h
      by_cases hpl : p < cc r - 1
      · rw [if_pos hpl] at h
        rw [Option.some.injEq, Prod.mk.injEq] at h
        obtain ⟨rfl, rfl⟩ := h
        by_cases hr1 : r = 1
        · subst hr1
          have hcc0 : cc 0 = 1 := by
            have := hcc 0 (by omega)
            simpa using this
          have hcc1 : cc 1 = 6 := by
            have := hcc 1 hr
            simpa using this
          have hcc0v : cc (1 - 1) = 1 := hcc0
          have hz : (1 - 1) * q + s = 0 := by omega
          rw [hz]
          refine ⟨by omega, by omega, p, ?_⟩
          show adjSlot L cc 0 0 p = some (1, p)
          unfold adjSlot
          rw [if_pos rfl, if_pos ⟨by omega, by omega⟩]
        · have hrge2 : 2 ≤ r := by omega
          have hccr1 : cc (r - 1) = 6 * (r - 1) := by
            have := hcc (r - 1) (by omega)
            rw [if_neg (by omega)] at this
            exact this
          have hmul5 : (r - 1) * q ≤ (r - 1) * 5 := Nat.mul_le_mul_left _ (by omega)
          by_cases hsl : s < r - 1
          · -- target is not a corner border case: its slot 3 points back
            have hdm := divmod_lemma (r - 1) q s (by omega) hsl
            refine ⟨by omega, by omega, 3, ?_⟩
            unfold adjSlot
            rw [if_neg (by omega : ¬ r - 1 = 0)]
            show adjRing L cc (r - 1) ((r - 1) * q + s) 3 = some (r, p)
            simp only [adjRing]
            rw [if_pos (by omega : r - 1 < L - 1)]
            rw [hdm.1, hdm.2]
            rw [Option.some.injEq, Prod.mk.injEq]
            constructor
            · omega
            · rw [show r - 1 + 1 = r from by omega]
              omega
          · -- s = r - 1: the target is a corner of layer r - 1; its slot 5 points back
            have hseq : s = r - 1 := by omega
            have hq4 : q < 5 := by
              by_contra hq5
              have h5q : 5 ≤ q := by omega
              have := Nat.mul_le_mul_left r h5q
              omega
            have hrw : (r - 1) * q + s = (r - 1) * (q + 1) := by
              rw [Nat.mul_succ]
              omega
            have hdm0 := divmod_lemma (r - 1) (q + 1) 0 (by omega) (by omega)
            rw [Nat.add_zero] at hdm0
            rw [hrw]
            have hmulq1 : (r - 1) * (q + 1) ≤ (r - 1) * 5 := Nat.mul_le_mul_left _ (by omega)
            have hpos : 0 < (r - 1) * (q + 1) := Nat.mul_pos (by omega) (by omega)
            refine ⟨by omega, by omega, 5, ?_⟩
            unfold adjSlot
            rw [if_neg (by omega : ¬ r - 1 = 0)]
            show adjRing L cc (r - 1) ((r - 1) * (q + 1)) 5 = some (r, p)
            simp only [adjRing]
            rw [isCorner_eq_true_of_mod (r - 1) _ hdm0.2]
            rw [if_neg (by decide : ¬ (true = false))]
            rw [if_pos (by omega : r - 1 < L - 1)]
            rw [if_pos hpos]
            rw [hdm0.1]
            rw [Option.some.injEq, Prod.mk.injEq]
            constructor
            · omega
            · rw [show r - 1 + 1 = r from by omega, Nat.mul_succ]
              omega
      · -- p is the last position: wraparound to position 0 of layer r - 1
        rw [if_neg hpl] at h
        rw [Option.some.injEq, Prod.mk.injEq] at h
        obtain ⟨rfl, rfl⟩ := h
        have hpe : p = 6 * r - 1 := by omega
        by_cases hr1 : r = 1
        · subst hr1
          have hcc0 : cc 0 = 1 := by
            have := hcc 0 (by omega)
            simpa using this
          have hcc1 : cc 1 = 6 := by
            have := hcc 1 hr
            simpa using this
          have hcc0v : cc (1 - 1) = 1 := hcc0
          refine ⟨by omega, by omega, 5, ?_⟩
          show adjSlot L cc 0 0 5 = some (1, p)
          unfold adjSlot
          rw [if_pos rfl, if_pos ⟨by omega, by omega⟩]
          rw [Option.some.injEq, Prod.mk.injEq]
          exact ⟨rfl, by omega⟩
        · have hrge2 : 2 ≤ r := by omega
          have hccr1 : cc (r - 1) = 6 * (r - 1) := by
            have := hcc (r - 1) (by omega)
            rw [if_neg (by omega)] at this
            exact this
          refine ⟨by omega, by omega, 5, ?_⟩
          unfold adjSlot
          rw [if_neg (by omega : ¬ r - 1 = 0)]
          show adjRing L cc (r - 1) 0 5 = some (r, p)
          simp only [adjRing]
          rw [isCorner_eq_true_of_mod (r - 1) 0 (Nat.zero_mod _)]
          rw [if_neg (by decide : ¬ (true = false))]
          rw [if_pos (by omega : r - 1 < L - 1)]
          rw [if_neg (by omega : ¬ (0 : Nat) < 0)]
          rw [hccr1]
          rw [Option.some.injEq, Prod.mk.injEq]
          constructor
          · omega
          · omega
    · -- slot 1: left neighbor; slot 2 of the target points back
      simp only [adjRing] at h
      by_cases hp0 : 0 < p
      · rw [if_pos hp0] at h
        rw [Option.some.injEq, Prod.mk.injEq] at h
        obtain ⟨rfl, rfl⟩ := h
        refine ⟨hr, by omega, 2, ?_⟩
        unfold adjSlot
        rw [if_neg hr0]
        show adjRing L cc r (p - 1) 2 = some (r, p)
        simp only [adjRing]
        rw [if_pos (by omega : p - 1 < cc r - 1)]
        rw [Option.some.injEq, Prod.mk.injEq]
        exact ⟨rfl, by omega⟩
      · rw [if_neg hp0] at h
        rw [Option.some.injEq, Prod.mk.injEq] at h
        obtain ⟨rfl, rfl⟩ := h
        refine ⟨hr, by omega, 2, ?_⟩
        unfold adjSlot
        rw [if_neg hr0]
        show adjRing L cc r (cc r - 1) 2 = some (r, p)
        simp only [adjRing]
        rw [if_neg (by omega : ¬ cc r - 1 < cc r - 1)]
        rw [Option.some.injEq, Prod.mk.injEq]
        exact ⟨rfl, by omega⟩
    · -- slot 2: right neighbor; slot 1 of the target points back
      simp only [adjRing] at h
      by_cases hpl : p < cc r - 1
      · rw [if_pos hpl] at h
        rw [Option.some.injEq, Prod.mk.injEq] at h
        obtain ⟨rfl, rfl⟩ := h
        refine ⟨hr, by omega, 1, ?_⟩
        unfold adjSlot
        rw [if_neg hr0]
        show adjRing L cc r (p + 1) 1 = some (r, p)
        simp only [adjRing]
        rw [if_pos (by omega : 0 < p + 1)]
        rw [Option.some.injEq, Prod.mk.injEq]
        exact ⟨rfl, by omega⟩
      · rw [if_neg hpl] at h
        rw [Option.some.injEq, Prod.mk.injEq] at h
        obtain ⟨rfl, rfl⟩ := h
        refine ⟨hr, by omega, 1, ?_⟩
        unfold adjSlot
        rw [if_neg hr0]
        show adjRing L cc r 0 1 = some (r, p)
        simp only [adjRing]
        rw [if_neg (by omega : ¬ (0 : Nat) < 0)]
        rw [Option.some.injEq, Prod.mk.injEq]
        exact ⟨rfl, by omega⟩
    · -- slot 3: outside middle (or outside left); slot 0 of the target points back
      simp only [adjRing] at h
      by_cases hrl : r < L - 1
      · rw [if_pos hrl] at h
        rw [hq, hsv] at h
        rw [Option.some.injEq, Prod.mk.injEq] at h
        obtain ⟨rfl, rfl⟩ := h
        have hccr1 : cc (r + 1) = 6 * (r + 1) := by
          have := hcc (r + 1) (by omega)
          rw [if_neg (by omega)] at this
          exact this
        have hdm := divmod_lemma (r + 1) q s (by omega) (by omega)
        have hmul5 : (r + 1) * q ≤ (r + 1) * 5 := Nat.mul_le_mul_left _ (by omega)
        refine ⟨by omega, by omega, 0, ?_⟩
        unfold adjSlot
        rw [if_neg (by omega : ¬ r + 1 = 0)]
        show adjRing L cc (r + 1) ((r + 1) * q + s) 0 = some (r, p)
        simp only [adjRing]
        rw [if_pos (by omega : (r + 1) * q + s < cc (r + 1) - 1)]
        rw [hdm.1, hdm.2]
        rw [Option.some.injEq, Prod.mk.injEq]
        constructor
        · omega
        · rw [Nat.add_sub_cancel]
          omega
      · rw [if_neg hrl] at h
        exact Option.noConfusion h
    · -- slot 4: outside right; slot 5 of the (non-corner) target points back
      simp only [adjRing] at h
      by_cases hrl : r < L - 1
      · rw [if_pos hrl] at h
        rw [hq, hsv] at h
        rw [show (r + 1) * q + s + 1 = (r + 1) * q + (s + 1) from rfl] at h
        rw [Option.some.injEq, Prod.mk.injEq] at h
        obtain ⟨rfl, rfl⟩ := h
        have hccr1 : cc (r + 1) = 6 * (r + 1) := by
          have := hcc (r + 1) (by omega)
          rw [if_neg (by omega)] at this
          exact this
        have hdm := divmod_lemma (r + 1) q (s + 1) (by omega) (by omega)
        have hmul5 : (r + 1) * q ≤ (r + 1) * 5 := Nat.mul_le_mul_left _ (by omega)
        refine ⟨by omega, by omega, 5, ?_⟩
        unfold adjSlot
        rw [if_neg (by omega : ¬ r + 1 = 0)]
        show adjRing L cc (r + 1) ((r + 1) * q + (s + 1)) 5 = some (r, p)
        simp only [adjRing]
        rw [isCorner_eq_false (r + 1) _ (by omega) (by rw [hdm.2]; omega)]
        rw [if_pos rfl]
        rw [hdm.1, hdm.2]
        rw [Option.some.injEq, Prod.mk.injEq]
        constructor
        · omega
        · rw [Nat.add_sub_cancel]
          omega
      · rw [if_neg hrl] at h
        exact Option.noConfusion h
    · -- slot 5: inside left (non-corner) or outside left (corner)
      simp only [adjRing] at h
      by_cases hcor : isCorner r p = false
      · -- non-corner: inside left; slot 4 of the target points back
        rw [if_pos hcor] at h
        rw [hq, hsv] at h
        have hs1 : 1 ≤ s := by
          have := isCorner_false_elim r p hcor
          omega
        have hrge2 : 2 ≤ r := by omega
        rw [show (r - 1) * q + s - 1 = (r - 1) * q + (s - 1) from by omega] at h
        rw [Option.some.injEq, Prod.mk.injEq] at h
        obtain ⟨rfl, rfl⟩ := h
        have hccr1 : cc (r - 1) = 6 * (r - 1) := by
          have := hcc (r - 1) (by omega)
          rw [if_neg (by omega)] at this
          exact this
        have hdm := divmod_lemma (r - 1) q (s - 1) (by omega) (by omega)
        have hmul5 : (r - 1) * q ≤ (r - 1) * 5 := Nat.mul_le_mul_left _ (by omega)
        refine ⟨by omega, by omega, 4, ?_⟩
        unfold adjSlot
        rw [if_neg (by omega : ¬ r - 1 = 0)]
        show adjRing L cc (r - 1) ((r - 1) * q + (s - 1)) 4 = some (r, p)
        simp only [adjRing]
        rw [if_pos (by omega : r - 1 < L - 1)]
        rw [hdm.1, hdm.2]
        rw [Option.some.injEq, Prod.mk.injEq]
        constructor
        · omega
        · rw [show r - 1 + 1 = r from by omega]
          omega
      · -- corner: outside left; slot 0 of the target points back
        rw [if_neg hcor] at h
        by_cases hrl : r < L - 1
        · rw [if_pos hrl] at h
          have hcort : isCorner r p = true := by
            revert hcor
            cases isCorner r p <;> simp
          have hs0 : s = 0 := by
            have := isCorner_true_elim r p hr0 hcort
            omega
          by_cases hp0 : 0 < p
          · rw [if_pos hp0] at h
            rw [hq] at h
            have hq1 : 1 ≤ q := by
              by_contra hq0
              have hq00 : q = 0 := by omega
              subst hq00
              omega
            obtain ⟨q1, rfl⟩ : ∃ x, q = x + 1 := ⟨q - 1, by omega⟩
            have hmulsucc : (r + 1) * (q1 + 1) = (r + 1) * q1 + (r + 1) :=
              Nat.mul_succ _ _
            rw [show (r + 1) * (q1 + 1) - 1 = (r + 1) * q1 + r from by omega] at h
            rw [Option.some.injEq, Prod.mk.injEq] at h
            obtain ⟨rfl, rfl⟩ := h
            have hccr1 : cc (r + 1) = 6 * (r + 1) := by
              have := hcc (r + 1) (by omega)
              rw [if_neg (by omega)] at this
              exact this
            have hdm := divmod_lemma (r + 1) q1 r (by omega) (by omega)
            have hmul4 : (r + 1) * q1 ≤ (r + 1) * 4 := Nat.mul_le_mul_left _ (by omega)
            have hmulr : r * (q1 + 1) = r * q1 + r := Nat.mul_succ _ _
            refine ⟨by omega, by omega, 0, ?_⟩
            unfold adjSlot
            rw [if_neg (by omega : ¬ r + 1 = 0)]
            show adjRing L cc (r + 1) ((r + 1) * q1 + r) 0 = some (r, p)
            simp only [adjRing]
            rw [if_pos (by omega : (r + 1) * q1 + r < cc (r + 1) - 1)]
            rw [hdm.1, hdm.2]
            rw [Option.some.injEq, Prod.mk.injEq]
            constructor
            · omega
            · rw [Nat.add_sub_cancel]
              omega
          · rw [if_neg hp0] at h
            rw [hccr] at h
            rw [Option.some.injEq, Prod.mk.injEq] at h
            obtain ⟨rfl, rfl⟩ := h
            have hccr1 : cc (r + 1) = 6 * (r + 1) := by
              have := hcc (r + 1) (by omega)
              rw [if_neg (by omega)] at this
              exact this
            refine ⟨by omega, by omega, 0, ?_⟩
            unfold adjSlot
            rw [if_neg (by omega : ¬ r + 1 = 0)]
            show adjRing L cc (r + 1) (6 * r + 6 - 1) 0 = some (r, p)
            simp only [adjRing]
            rw [if_neg (by omega : ¬ 6 * r + 6 - 1 < cc (r + 1) - 1)]
            rw [Option.some.injEq, Prod.mk.injEq]
            constructor
            · rw [Nat.add_sub_cancel]
            · omega
        · rw [if_neg hrl] at h
          exact Option.noConfusion h
    · -- slots beyond 5 do not exist
      simp only [adjRing] at h
      exact Option.noConfusion h

/-- C2: after `setNeighbors` runs on any well-formed grid (layer 0 has one
node, layer r has 6·r nodes), the neighbor relation is symmetric: if some
neighbor slot of node A holds node B, then some neighbor slot of B holds
A. -/
theorem claim_C2_neighbor_symmetric (layers : List (List Char))
    (hwf : WellFormed layers) (a b : Cell) (k : Nat)
    (hab : adjOf layers a k = some b) :
    ∃ j, adjOf layers b j = some a := by
  unfold adjOf at hab
  by_cases hv : a.1 < layers.length ∧ a.2 < sizeAt layers a.1
  · rw [if_pos hv] at hab
    obtain ⟨hr2, hp2, j, hj⟩ := adjSlot_symm layers.length (sizeAt layers) hwf
      a.1 a.2 k b.1 b.2 hv.1 hv.2 hab
    refine ⟨j, ?_⟩
    unfold adjOf
    rw [if_pos ⟨hr2, hp2⟩]
    exact hj
  · rw [if_neg hv] at hab
    exact Option.noConfusion hab

/-- Witness for C2 on the two-ring example grid: node (1,2) lists (1,3)
via its slot 2, so some slot of (1,3) points back at (1,2). -/
theorem claim_C2_witness :
    ∃ j, adjOf [['A'], ['B', 'C', 'D', 'E', 'F', 'G']] (1, 3) j = some (1, 2) :=
  claim_C2_neighbor_symmetric [['A'], ['B', 'C', 'D', 'E', 'F', 'G']]
    (by unfold WellFormed; decide) (1, 2) (1, 3) 2 (by decide)

/-- C5: for a well-formed grid and a node at layer r ≥ 1 position p, the
inward slot 0 holds layer r-1 position `(r-1)·(p div r) + (p mod r)`
unless p is the last position of the layer, in which case it holds
position 0 of layer r-1; a node is a corner iff `r = 0` or `p mod r = 0`;
corner nodes have exactly one neighbor slot pointing into layer r-1 and
edge (non-corner) nodes have exactly two. -/
theorem claim_C5_inward_neighbors (layers : List (List Char))
    (_hwf : WellFormed layers) (r p : Nat) (hr1 : 1 ≤ r)
    (hrL : r < layers.length) (hp : p < sizeAt layers r) :
    adjOf layers (r, p) 0 =
      some (if p < sizeAt layers r - 1 then (r - 1, (r - 1) * (p / r) + p % r)
            else (r - 1, 0)) ∧
    (isCorner r p = true ↔ (r = 0 ∨ p % r = 0)) ∧
    inwardCount layers (r, p) = if isCorner r p then 1 else 2 := by
  have hr0 : ¬ r = 0 := by omega
  have hadj : ∀ k, adjOf layers (r, p) k =
      adjRing layers.length (sizeAt layers) r p k := by
    intro k
    unfold adjOf adjSlot
    rw [if_pos ⟨hrL, hp⟩, if_neg hr0]
  refine ⟨?_, ?_, ?_⟩
  · rw [hadj 0]
    simp only [adjRing]
  · constructor
    · intro h
      exact Or.inr (isCorner_true_elim r p hr0 h)
    · rintro (h | h)
      · omega
      · exact isCorner_eq_true_of_mod r p h
  · have e0 : (match adjOf layers (r, p) 0 with
        | some b => b.1 == ((r, p) : Cell).1 - 1
        | none => false) = true := by
      rw [hadj 0]
      simp only [adjRing]
      by_cases hpl : p < sizeAt layers r - 1
      · rw [if_pos hpl]
        show (r - 1 == r - 1) = true
        exact beq_self_eq_true _
      · rw [if_neg hpl]
        show (r - 1 == r - 1) = true
        exact beq_self_eq_true _
    have e1 : (match adjOf layers (r, p) 1 with
        | some b => b.1 == ((r, p) : Cell).1 - 1
        | none => false) = false := by
      rw [hadj 1]
      simp only [adjRing]
      by_cases hp0 : 0 < p
      · rw [if_pos hp0]
        show (r == r - 1) = false
        rw [beq_eq_false_iff_ne]
        omega
      · rw [if_neg hp0]
        show (r == r - 1) = false
        rw [beq_eq_false_iff_ne]
        omega
    have e2 : (match adjOf layers (r, p) 2 with
        | some b => b.1 == ((r, p) : Cell).1 - 1
        | none => false) = false := by
      rw [hadj 2]
      simp only [adjRing]
      by_cases hpl : p < sizeAt layers r - 1
      · rw [if_pos hpl]
        show (r == r - 1) = false
        rw [beq_eq_false_iff_ne]
        omega
      · rw [if_neg hpl]
        show (r == r - 1) = false
        rw [beq_eq_false_iff_ne]
        omega
    have e3 : (match adjOf layers (r, p) 3 with
        | some b => b.1 == ((r, p) : Cell).1 - 1
        | none => false) = false := by
      rw [hadj 3]
      simp only [adjRing]
      by_cases hrl : r < layers.length - 1
      · rw [if_pos hrl]
        show (r + 1 == r - 1) = false
        rw [beq_eq_false_iff_ne]
        omega
      · rw [if_neg hrl]
    have e4 : (match adjOf layers (r, p) 4 with
        | some b => b.1 == ((r, p) : Cell).1 - 1
        | none => false) = false := by
      rw [hadj 4]
      simp only [adjRing]
      by_cases hrl : r < layers.length - 1
      · rw [if_pos hrl]
        show (r + 1 == r - 1) = false
        rw [beq_eq_false_iff_ne]
        omega
      · rw [if_neg hrl]
    by_cases hc : isCorner r p = true
    · have e5 : (match adjOf layers (r, p) 5 with
          | some b => b.1 == ((r, p) : Cell).1 - 1
          | none => false) = false := by
        rw [hadj 5]
        simp only [adjRing]
        rw [hc, if_neg (by decide : ¬ (true = false))]
        by_cases hrl : r < layers.length - 1
        · rw [if_pos hrl]
          by_cases hp0 : 0 < p
          · rw [if_pos hp0]
            show (r + 1 == r - 1) = false
            rw [beq_eq_false_iff_ne]
            omega
          · rw [if_neg hp0]
            show (r + 1 == r - 1) = false
            rw [beq_eq_false_iff_ne]
            omega
        · rw [if_neg hrl]
      rw [hc, if_pos rfl]
      unfold inwardCount slotRange
      simp only [List.filter_cons, List.filter_nil, e0, e1, e2, e3, e4, e5,
        if_true, if_false]
      rfl
    · have hcf : isCorner r p = false := by
        revert hc
        cases isCorner r p <;> simp
      have e5 : (match adjOf layers (r, p) 5 with
          | some b => b.1 == ((r, p) : Cell).1 - 1
          | none => false) = true := by
        rw [hadj 5]
        simp only [adjRing]
        rw [hcf, if_pos rfl]
        show (r - 1 == r - 1) = true
        exact beq_self_eq_true _
      rw [hcf, if_neg (by decide : ¬ (false = true))]
      unfold inwardCount slotRange
      simp only [List.filter_cons, List.filter_nil, e0, e1, e2, e3, e4, e5,
        if_true, if_false]
      rfl

/-- Witness for C5 at a concrete well-formed grid and node. -/
theorem claim_C5_witness :
    adjOf [['A'], ['B', 'C', 'D', 'E', 'F', 'G']] (1, 2) 0 =
      some (if 2 < sizeAt [['A'], ['B', 'C', 'D', 'E', 'F', 'G']] 1 - 1
            then (0, 0 * (2 / 1) + 2 % 1) else (0, 0)) ∧
    (isCorner 1 2 = true ↔ (1 = 0 ∨ 2 % 1 = 0)) ∧
    inwardCount [['A'], ['B', 'C', 'D', 'E', 'F', 'G']] (1, 2) =
      if isCorner 1 2 then 1 else 2 :=
  claim_C5_inward_neighbors [['A'], ['B', 'C', 'D', 'E', 'F', 'G']]
    (by unfold WellFormed; decide) 1 2 (by decide) (by decide) (by decide)

/-- C6: after `setNeighbors` on a well-formed grid with more than one
layer, the six slots of the central node hold the six nodes of layer 1 in
position order; on a grid with exactly one layer the central node's slots
are all empty. -/
theorem claim_C6_center_slots (layers : List (List Char))
    (hwf : WellFormed layers) :
    (1 < layers.length → ∀ k < 6, adjOf layers (0, 0) k = some (1, k)) ∧
    (layers.length = 1 → ∀ k, adjOf layers (0, 0) k = none) := by
  constructor
  · intro hL k hk
    have hs0 : sizeAt layers 0 = 1 := by
      have := hwf 0 (by omega)
      simpa using this
    have hv : ((0, 0) : Cell).1 < layers.length ∧
        ((0, 0) : Cell).2 < sizeAt layers ((0, 0) : Cell).1 := by
      constructor
      · show 0 < layers.length
        omega
      · show 0 < sizeAt layers 0
        omega
    unfold adjOf
    rw [if_pos hv]
    unfold adjSlot
    rw [if_pos rfl, if_pos ⟨hL, hk⟩]
  · intro hL k
    have hs0 : sizeAt layers 0 = 1 := by
      have := hwf 0 (by omega)
      simpa using this
    have hv : ((0, 0) : Cell).1 < layers.length ∧
        ((0, 0) : Cell).2 < sizeAt layers ((0, 0) : Cell).1 := by
      constructor
      · show 0 < layers.length
        omega
      · show 0 < sizeAt layers 0
        omega
    unfold adjOf
    rw [if_pos hv]
    unfold adjSlot
    rw [if_pos rfl, if_neg (fun hc => by omega)]

/-- Witness for C6 at concrete one-layer and two-layer grids. -/
theorem claim_C6_witness :
    adjOf [['A'], ['B', 'C', 'D', 'E', 'F', 'G']] (0, 0) 4 = some (1, 4) ∧
    adjOf [['A']] (0, 0) 4 = none :=
  ⟨(claim_C6_center_slots [['A'], ['B', 'C', 'D', 'E', 'F', 'G']]
      (by unfold WellFormed; decide)).1 (by decide) 4 (by decide),
   (claim_C6_center_slots [['A']]
      (by unfold WellFormed; decide)).2 (by decide) 4⟩

/-- C7: the end-to-end example — grid with layer 0 "A" and layer 1
"BCDEFG", dictionary ["AB", "AG", "BC", "XYZ"] — produces exactly the
sorted found list ["AB", "AG", "BC"]; "XYZ" is not found. -/
theorem claim_C7_example :
    runMain [['A'], ['B', 'C', 'D', 'E', 'F', 'G']]
      [['A', 'B'], ['A', 'G'], ['B', 'C'], ['X', 'Y', 'Z']]
      = [['A', 'B'], ['A', 'G'], ['B', 'C']] := by decide

/- ### Single-letter words and absence of self-loops (C8) -/

lemma searchStarts_nil_word (g : HexGraph) (cs : List Cell) (vis : Vis) :
    (searchStarts g [] cs vis).1 = true ↔ cs ≠ [] := by
  cases cs with
  | nil => simp [searchStarts]
  | cons c cs2 => simp [searchStarts, searchNodes_nil_some]

lemma bucketsOf_ne_nil_iff (layers : List (List Char)) (c : Char) :
    bucketsOf layers (getBucket c) ≠ [] ↔ c ∈ layers.flatten := by
  unfold bucketsOf
  rw [Ne, List.filter_eq_nil_iff]
  push_neg
  constructor
  · rintro ⟨⟨r, p⟩, hmem, hbeq⟩
    rw [beq_iff_eq] at hbeq
    have hval := getBucket_inj hbeq
    rw [mem_cellsOf] at hmem
    rw [List.mem_flatten]
    have hrl : r < layers.length := hmem.1
    have hpl : p < sizeAt layers r := hmem.2
    refine ⟨layers[r], List.getElem_mem hrl, ?_⟩
    rw [← hval]
    unfold valAt
    have hget : layers.getD r [] = layers[r] := List.getD_eq_getElem layers [] hrl
    rw [hget]
    show layers[r].getD p (Char.ofNat 0) ∈ layers[r]
    have hpl2 : p < layers[r].length := by
      unfold sizeAt at hpl
      rw [hget] at hpl
      exact hpl
    rw [List.getD_eq_getElem layers[r] (Char.ofNat 0) hpl2]
    exact List.getElem_mem hpl2
  · intro hmem
    rw [List.mem_flatten] at hmem
    obtain ⟨row, hrow, hcrow⟩ := hmem
    obtain ⟨r, hr, hreq⟩ := List.mem_iff_getElem.mp hrow
    obtain ⟨p, hp, hpeq⟩ := List.mem_iff_getElem.mp hcrow
    have hget : layers.getD r [] = layers[r] := List.getD_eq_getElem layers [] hr
    have hsz : p < sizeAt layers r := by
      unfold sizeAt
      rw [hget, hreq]
      exact hp
    refine ⟨(r, p), (mem_cellsOf layers r p).mpr ⟨hr, hsz⟩, ?_⟩
    rw [beq_iff_eq]
    congr 1
    unfold valAt
    show (layers.getD r []).getD p (Char.ofNat 0) = c
    rw [hget]
    have hp2 : p < layers[r].length := by rw [hreq]; exact hp
    rw [List.getD_eq_getElem layers[r] (Char.ofNat 0) hp2]
    rw [← hpeq]
    congr 1

lemma adjOf_no_self (layers : List (List Char)) (hwf : WellFormed layers)
    (a : Cell) (k : Nat) : adjOf layers a k ≠ some a := by
  obtain ⟨r, p⟩ := a
  unfold adjOf
  by_cases hv : ((r, p) : Cell).1 < layers.length ∧
      ((r, p) : Cell).2 < sizeAt layers ((r, p) : Cell).1
  · rw [if_pos hv]
    have hrL : r < layers.length := hv.1
    have hpS : p < sizeAt layers r := hv.2
    intro hcon
    unfold adjSlot at hcon
    by_cases hr0 : r = 0
    · subst hr0
      rw [if_pos rfl] at hcon
      by_cases hLk : 1 < layers.length ∧ k < 6
      · rw [if_pos hLk] at hcon
        rw [Option.some.injEq, Prod.mk.injEq] at hcon
        omega
      · rw [if_neg hLk] at hcon
        exact Option.noConfusion hcon
    · rw [if_neg hr0] at hcon
      have hccr : sizeAt layers r = 6 * r := by
        have := hwf r hrL
        rw [if_neg hr0] at this
        exact this
      rcases k with _ | _ | _ | _ | _ | _ | k7
      · simp only [adjRing] at hcon
        by_cases hpl : p < sizeAt layers r - 1
        · rw [if_pos hpl] at hcon
          rw [Option.some.injEq, Prod.mk.injEq] at hcon
          omega
        · rw [if_neg hpl] at hcon
          rw [Option.some.injEq, Prod.mk.injEq] at hcon
          omega
      · simp only [adjRing] at hcon
        by_cases hp0 : 0 < p
        · rw [if_pos hp0] at hcon
          rw [Option.some.injEq, Prod.mk.injEq] at hcon
          omega
        · rw [if_neg hp0] at hcon
          rw [Option.some.injEq, Prod.mk.injEq] at hcon
          omega
      · simp only [adjRing] at hcon
        by_cases hpl : p < sizeAt layers r - 1
        · rw [if_pos hpl] at hcon
          rw [Option.some.injEq, Prod.mk.injEq] at hcon
          omega
        · rw [if_neg hpl] at hcon
          rw [Option.some.injEq, Prod.mk.injEq] at hcon
          omega
      · simp only [adjRing] at hcon
        by_cases hrl : r < layers.length - 1
        · rw [if_pos hrl] at hcon
          rw [Option.some.injEq, Prod.mk.injEq] at hcon
          omega
        · rw [if_neg hrl] at hcon
          exact Option.noConfusion hcon
      · simp only [adjRing] at hcon
        by_cases hrl : r < layers.length - 1
        · rw [if_pos hrl] at hcon
          rw [Option.some.injEq, Prod.mk.injEq] at hcon
          omega
        · rw [if_neg hrl] at hcon
          exact Option.noConfusion hcon
      · simp only [adjRing] at hcon
        by_cases hcf : isCorner r p = false
        · rw [if_pos hcf] at hcon
          rw [Option.some.injEq, Prod.mk.injEq] at hcon
          omega
        · rw [if_neg hcf] at hcon
          by_cases hrl : r < layers.length - 1
          · rw [if_pos hrl] at hcon
            by_cases hp0 : 0 < p
            · rw [if_pos hp0] at hcon
              rw [Option.some.injEq, Prod.mk.injEq] at hcon
              omega
            · rw [if_neg hp0] at hcon
              rw [Option.some.injEq, Prod.mk.injEq] at hcon
              omega
          · rw [if_neg hrl] at hcon
            exact Option.noConfusion hcon
      · simp only [adjRing] at hcon
        exact Option.noConfusion hcon
  · rw [if_neg hv]
    intro hcon
    exact Option.noConfusion hcon

/-- C8: a one-character word is found by the driver exactly when some node
carries that letter (the search succeeds immediately, with no neighbor
step); no node is ever its own neighbor on a well-formed grid; and on the
grid consisting only of layer 0 = "A" with dictionary ["A", "AA"] the
found set is exactly ["A"]. -/
theorem claim_C8_single_letter :
    (∀ (layers : List (List Char)) (c : Char),
        ((searchStarts (gridOf layers) ([c].drop 1)
          (bucketsOf layers (getBucket (wordFirst [c]))) (fun _ => false)).1 = true
          ↔ c ∈ layers.flatten)) ∧
    (∀ (layers : List (List Char)), WellFormed layers →
        ∀ (a : Cell) (k : Nat), adjOf layers a k ≠ some a) ∧
    runMain [['A']] [['A'], ['A', 'A']] = [['A']] := by
  refine ⟨?_, fun layers hwf a k => adjOf_no_self layers hwf a k, by decide⟩
  intro layers c
  rw [show ([c].drop 1) = ([] : List Char) from rfl]
  rw [show wordFirst [c] = c from rfl]
  rw [searchStarts_nil_word]
  exact bucketsOf_ne_nil_iff layers c

/-- Witness for C8's well-formedness hypothesis at a concrete grid. -/
theorem claim_C8_witness :
    adjOf [['A']] (0, 0) 0 ≠ some (0, 0) :=
  claim_C8_single_letter.2.1 [['A']] (by unfold WellFormed; decide) (0, 0) 0
